import Mathlib

/-!
Shallow embedding of the chapter-detection and reconciliation core of the
web-novel-tracker repository (TypeScript), together with proofs of the
spec's testable properties.

Modelling conventions:
* HTML fetching/parsing, the AI summarizer and the illustrator are external
  collaborators (spec §2); they are modelled as an `Env` of oracle functions
  `url ↦ Except error page` etc.  Everything downstream of those oracles —
  the sort in `extractChapters` (scraper.ts:125), the synthetic-chapter
  fallback (scraper.ts:63-71), the watermark filter in `checkForNewChapters`
  (scraper.ts:252-277), the JSON storage operations (storage.ts) and the
  scheduler / HTTP handler control flow (scheduler.ts, server.ts) — is
  translated directly from the source.
* JS `Array.prototype.sort` with comparator `a.number - b.number` is a
  stable sort; it is modelled by a stable sort (`List.insertionSort`).
* `generateId()` (an opaque unique-string generator) is modelled by a
  `nextId : Nat` counter in the storage state; ids are `Nat`.
* `new Date().toISOString()` timestamps are modelled as an integer clock
  `Env.now` (milliseconds); `cutoffDate.setDate(getDate() - daysOld)` in
  `cleanup` is modelled as subtracting `daysOld * 86400000` ms.
* `try`/`catch`/`finally` become `Except` results and explicit branching;
  a caught error leaves previously performed storage writes in place, as
  the file-backed storage does.
-/

/-- A discovered chapter reference (types.ts `Chapter`). -/
structure Chapter where
  number : Nat
  title : String
  url : String
  content : Option String := none
deriving DecidableEq

/-- Scrape result for a book page (types.ts `BookInfo`). -/
structure BookInfo where
  title : String
  url : String
  chapters : List Chapter
  lastChapter : Nat
  totalChapters : Nat
deriving DecidableEq

/-- Result of a new-chapter check (types.ts `ChapterCheckResult`). -/
structure ChapterCheckResult where
  hasNewChapters : Bool
  newChapters : List Chapter
  totalChapters : Nat
  lastChapter : Nat
  error : Option String := none
deriving DecidableEq

/-- History actions (types.ts `HistoryEntry.action`). -/
inductive HistoryAction where
  | detected
  | processed
  | summarized
deriving DecidableEq

/-- A tracked book (types.ts `Book`); dates are integer timestamps. -/
structure Book where
  id : Nat
  url : String
  title : String
  lastChapter : Nat
  totalChapters : Nat
  dateAdded : Int
  lastUpdated : Int
  lastChecked : Int
deriving DecidableEq

/-- A stored summary (types.ts `Summary`). -/
structure Summary where
  id : Nat
  bookId : Nat
  bookTitle : String
  chapters : List Chapter
  summary : String
  date : Int
  imageUrl : Option String := none
deriving DecidableEq

/-- A history log entry (types.ts `HistoryEntry`). -/
structure HistoryEntry where
  id : Nat
  bookId : Nat
  chapterNumber : Nat
  chapterTitle : String
  chapterUrl : String
  action : HistoryAction
  date : Int
deriving DecidableEq

/-- Payload of `storage.addSummary` (types.ts `SummaryData`). -/
structure SummaryData where
  bookId : Nat
  bookTitle : String
  chapters : List Chapter
  summary : String
  imageUrl : Option String := none
deriving DecidableEq

/-- Return value of `storage.cleanup` (types.ts `CleanupResult`). -/
structure CleanupResult where
  summariesRemoved : Nat
  historyRemoved : Nat
deriving DecidableEq

/-- The three JSON collections of `JSONStorage` (books.json, summaries.json,
history.json) plus the id-generator state. -/
structure Storage where
  books : List Book
  summaries : List Summary
  history : List HistoryEntry
  nextId : Nat
deriving DecidableEq

/-- What the external page fetch + selector heuristics yield for a book URL:
the page title and the chapter links in discovery order (pre-sort).
This is the interface boundary of the Fetcher/Extractor collaborators. -/
structure ScrapedPage where
  title : String
  found : List Chapter
deriving DecidableEq

/-- Environment of external collaborators and the clock. -/
structure Env where
  scrape : String → Except String ScrapedPage
  content : String → Except String String
  summarizeChapter : String → String → String → Except String String
  summarizeMultiple : List Chapter → String → Except String String
  illustrate : String → Option String
  now : Int

/-- The comparator of `extractChapters`' sort
(scraper.ts:125, `(a, b) => a.number - b.number`). -/
def chapterLE (a b : Chapter) : Prop := a.number ≤ b.number

instance : DecidableRel chapterLE := fun a b => Nat.decLe a.number b.number

instance : IsTotal Chapter chapterLE := ⟨fun a b => Nat.le_total a.number b.number⟩

instance : IsTrans Chapter chapterLE := ⟨fun _ _ _ => Nat.le_trans⟩

/-- The stable ascending sort by chapter number performed at the end of
`extractChapters` (scraper.ts:125, `chapters.sort((a, b) => a.number - b.number)`).
JS `Array.prototype.sort` is a stable sort; stable sorting by a total
preorder comparator determines the output uniquely, so any stable sorting
algorithm is an exact model — insertion sort is used because it computes
by kernel reduction. -/
def sortChapters (found : List Chapter) : List Chapter :=
  List.insertionSort chapterLE found

/-- `WebNovelScraper.scrapeBookInfo` (scraper.ts:14-85): decode+extract via the
environment, sort the discovered chapters, fall back to a single synthetic
chapter when none were found, and report the last chapter number. -/
def scrapeBookInfo (env : Env) (url : String) : Except String BookInfo :=
  match env.scrape url with
  | .error e => .error ("Failed to scrape book: " ++ e)
  | .ok page =>
    let sorted := sortChapters page.found
    let chapters := if sorted.isEmpty then [{ number := 1, title := page.title, url := url }] else sorted
    .ok { title := page.title, url := url, chapters := chapters,
          lastChapter := ((chapters.getLast?).map (fun c => c.number)).getD 0,
          totalChapters := chapters.length }

/-- `WebNovelScraper.checkForNewChapters` (scraper.ts:252-277): scrape, keep the
chapters strictly above the watermark, and on any failure return the
all-zero result carrying the error message. -/
def checkForNewChapters (env : Env) (url : String) (lastKnownChapter : Nat) : ChapterCheckResult :=
  match scrapeBookInfo env url with
  | .ok bookInfo =>
    let newChapters := bookInfo.chapters.filter (fun c => c.number > lastKnownChapter)
    { hasNewChapters := newChapters.length > 0,
      newChapters := newChapters,
      totalChapters := bookInfo.totalChapters,
      lastChapter := bookInfo.lastChapter,
      error := none }
  | .error e =>
    { hasNewChapters := false, newChapters := [], totalChapters := 0,
      lastChapter := 0, error := some e }

/-- The chapter differ on a raw discovered chapter list: the sort of
`extractChapters` (scraper.ts:125) composed with the watermark filter of
`checkForNewChapters` (scraper.ts:255-257). -/
def diffNewChapters (watermark : Nat) (found : List Chapter) : List Chapter :=
  (sortChapters found).filter (fun c => c.number > watermark)

/-- Partial update of a book record (the object literals passed to
`storage.updateBook`). -/
structure BookUpdates where
  lastChapter : Option Nat := none
  totalChapters : Option Nat := none
  lastChecked : Option Int := none
deriving DecidableEq

/-- The spread `{...books[i], ...updates, lastUpdated: now}` of
`JSONStorage.updateBook` (storage.ts:91-95). -/
def applyUpdates (env : Env) (b : Book) (u : BookUpdates) : Book :=
  { b with
    lastChapter := u.lastChapter.getD b.lastChapter,
    totalChapters := u.totalChapters.getD b.totalChapters,
    lastChecked := u.lastChecked.getD b.lastChecked,
    lastUpdated := env.now }

/-- `JSONStorage.updateBook` (storage.ts:83-99): find the first book with the
given id, throw if absent, otherwise merge the updates in place. -/
def updateBook (env : Env) (st : Storage) (bookId : Nat) (u : BookUpdates) : Except String Storage :=
  match st.books.findIdx? (fun b => b.id == bookId) with
  | none => .error "Book not found"
  | some i => .ok { st with books := st.books.modify (fun b => applyUpdates env b u) i }

/-- `JSONStorage.addBook` (storage.ts:65-81). -/
def addBook (env : Env) (st : Storage) (bi : BookInfo) : Book × Storage :=
  let newBook : Book :=
    { id := st.nextId, url := bi.url, title := bi.title,
      lastChapter := bi.lastChapter, totalChapters := bi.totalChapters,
      dateAdded := env.now, lastUpdated := env.now, lastChecked := env.now }
  (newBook, { st with books := st.books ++ [newBook], nextId := st.nextId + 1 })

/-- `JSONStorage.removeBook` (storage.ts:101-111): filter the book out, throw
if nothing was removed. -/
def removeBook (st : Storage) (bookId : Nat) : Except String Storage :=
  let filteredBooks := st.books.filter (fun b => b.id != bookId)
  if filteredBooks.length == st.books.length then .error "Book not found"
  else .ok { st with books := filteredBooks }

/-- `JSONStorage.getBookById` (storage.ts:113-116). -/
def getBookById (st : Storage) (bookId : Nat) : Option Book :=
  st.books.find? (fun b => b.id == bookId)

/-- `JSONStorage.addSummary` (storage.ts:132-159). -/
def addSummary (env : Env) (st : Storage) (sd : SummaryData) : Storage :=
  { st with
    summaries := st.summaries ++
      [{ id := st.nextId, bookId := sd.bookId, bookTitle := sd.bookTitle,
         chapters := sd.chapters, summary := sd.summary, date := env.now,
         imageUrl := sd.imageUrl }],
    nextId := st.nextId + 1 }

/-- `JSONStorage.removeSummariesByBookId` (storage.ts:166-173). -/
def removeSummariesByBookId (st : Storage) (bookId : Nat) : Storage :=
  { st with summaries := st.summaries.filter (fun s => s.bookId != bookId) }

/-- `JSONStorage.addHistoryEntry` (storage.ts:186-201). -/
def addHistoryEntry (env : Env) (st : Storage) (bookId chapterNumber : Nat)
    (chapterTitle chapterUrl : String) (action : HistoryAction) : Storage :=
  { st with
    history := st.history ++
      [{ id := st.nextId, bookId := bookId, chapterNumber := chapterNumber,
         chapterTitle := chapterTitle, chapterUrl := chapterUrl,
         action := action, date := env.now }],
    nextId := st.nextId + 1 }

/-- Milliseconds per day, for the retention cutoff. -/
def msPerDay : Int := 86400000

/-- `JSONStorage.cleanup` (storage.ts:208-230): keep only entries dated
strictly after `now - daysOld` days; return the removal counts. -/
def cleanup (env : Env) (daysOld : Nat) (st : Storage) : CleanupResult × Storage :=
  let cutoffDate := env.now - daysOld * msPerDay
  let filteredSummaries := st.summaries.filter (fun s => s.date > cutoffDate)
  let filteredHistory := st.history.filter (fun h => h.date > cutoffDate)
  ({ summariesRemoved := st.summaries.length - filteredSummaries.length,
     historyRemoved := st.history.length - filteredHistory.length },
   { st with summaries := filteredSummaries, history := filteredHistory })

/-- Observable storage-write events emitted during a reconciliation pass,
used to state ordering (temporal) properties.  `update` records the
`lastChapter` field of the write, if any. -/
inductive Ev where
  | update (bookId : Nat) (lastChapter : Option Nat)
  | histEv (bookId : Nat) (chapterNumber : Nat) (action : HistoryAction)
deriving DecidableEq

/-- One iteration of the per-book loop of `NovelScheduler.checkAllBooks`
(scheduler.ts:62-105): check for new chapters; if there are any, write the
watermark/lastChecked update and then append one `detected` history entry
per new chapter; otherwise only refresh `lastChecked`.  A thrown storage
error is caught per book (scheduler.ts:102-104), leaving prior writes in
place. -/
def processBook (env : Env) (st : Storage) (b : Book) : Storage × List Ev :=
  let result := checkForNewChapters env b.url b.lastChapter
  if result.hasNewChapters then
    match updateBook env st b.id
        { lastChapter := some result.lastChapter,
          totalChapters := some result.totalChapters,
          lastChecked := some env.now } with
    | .error _ => (st, [])
    | .ok st1 =>
      let folded := result.newChapters.foldl
        (fun acc c =>
          (addHistoryEntry env acc.1 b.id c.number c.title c.url .detected,
           acc.2 ++ [Ev.histEv b.id c.number .detected]))
        (st1, ([] : List Ev))
      (folded.1, Ev.update b.id (some result.lastChapter) :: folded.2)
  else
    match updateBook env st b.id { lastChecked := some env.now } with
    | .error _ => (st, [])
    | .ok st1 => (st1, [Ev.update b.id none])

/-- The sequential fold of `checkAllBooks` over the snapshot of the book
list, threading storage state and collecting the event trace. -/
def runBooks (env : Env) : List Book → Storage → Storage × List Ev
  | [], st => (st, [])
  | b :: bs, st =>
    let step := processBook env st b
    let rest := runBooks env bs step.1
    (rest.1, step.2 ++ rest.2)

/-- Scheduler state: the run-guard flag `isRunning` plus the shared storage. -/
structure SchedState where
  isRunning : Bool
  store : Storage
deriving DecidableEq

/-- Outcome of a reconciliation body: possible uncaught error, the storage
as mutated up to that point, and the event trace. -/
structure RunOutcome where
  err : Option String
  store : Storage
  events : List Ev

/-- The run-guard skeleton of `NovelScheduler.checkAllBooks`
(scheduler.ts:47-119): a no-op while `isRunning`; otherwise set the flag,
run the body, and clear the flag in the `finally` block regardless of
whether the body raised. -/
def checkAllBooksGuard (body : Storage → RunOutcome) (s : SchedState) : SchedState × List Ev :=
  if s.isRunning then (s, [])
  else
    let o := body s.store
    ({ isRunning := false, store := o.store }, o.events)

/-- The body of `checkAllBooks`: snapshot the book list, then process each
book sequentially.  All per-book errors are caught inside `processBook`,
so the body itself never raises. -/
def checkAllBooksBody (env : Env) (st : Storage) : RunOutcome :=
  let r := runBooks env st.books st
  { err := none, store := r.1, events := r.2 }

/-- `NovelScheduler.checkAllBooks` (scheduler.ts:47-119). -/
def checkAllBooks (env : Env) (s : SchedState) : SchedState × List Ev :=
  checkAllBooksGuard (checkAllBooksBody env) s

/-- `GET /api/books/:id/check` (server.ts, part_003:198-222): look the book
up, check for new chapters, and persist the update only when there are new
chapters.  Returns the HTTP status with the resulting storage. -/
def apiCheckBook (env : Env) (bookId : Nat) (st : Storage) : Nat × Storage :=
  match getBookById st bookId with
  | none => (404, st)
  | some book =>
    let result := checkForNewChapters env book.url book.lastChapter
    if result.hasNewChapters then
      match updateBook env st bookId
          { lastChapter := some result.lastChapter,
            totalChapters := some result.totalChapters,
            lastChecked := some env.now } with
      | .ok st1 => (200, st1)
      | .error _ => (500, st)
    else (200, st)

/-- One iteration of the `POST /api/check-all` loop (part_003:260-299):
like the scheduler's loop but with no `lastChecked` refresh when there are
no new chapters. -/
def apiCheckAllBook (env : Env) (st : Storage) (b : Book) : Storage :=
  let result := checkForNewChapters env b.url b.lastChapter
  if result.hasNewChapters then
    match updateBook env st b.id
        { lastChapter := some result.lastChapter,
          totalChapters := some result.totalChapters,
          lastChecked := some env.now } with
    | .error _ => st
    | .ok st1 =>
      result.newChapters.foldl
        (fun acc c => addHistoryEntry env acc b.id c.number c.title c.url .detected) st1
  else st

/-- `POST /api/check-all` (part_003:255-305). -/
def apiCheckAll (env : Env) (st : Storage) : Storage :=
  st.books.foldl (apiCheckAllBook env) st

/-- One iteration of the `POST /api/summarize` loop (part_003:312-365):
scrape the new chapters' content (per-chapter errors skipped), summarize
them in one batch, store the combined summary, then update the book.  A
summarizer error is caught by the per-book handler before any write. -/
def apiSummarizeBook (env : Env) (st : Storage) (b : Book) : Storage :=
  let result := checkForNewChapters env b.url b.lastChapter
  if result.hasNewChapters then
    let chaptersWithContent := result.newChapters.filterMap (fun c =>
      match env.content c.url with
      | .ok text => some { c with content := some text }
      | .error _ => none)
    if chaptersWithContent.length > 0 then
      match env.summarizeMultiple chaptersWithContent b.title with
      | .error _ => st
      | .ok summaryText =>
        let st1 := addSummary env st
          { bookId := b.id, bookTitle := b.title,
            chapters := chaptersWithContent.map (fun c =>
              { number := c.number, title := c.title, url := c.url }),
            summary := summaryText }
        match updateBook env st1 b.id
            { lastChapter := some result.lastChapter,
              totalChapters := some result.totalChapters,
              lastChecked := some env.now } with
        | .ok st2 => st2
        | .error _ => st1
    else st
  else st

/-- `POST /api/summarize` (part_003:307-371). -/
def apiSummarize (env : Env) (st : Storage) : Storage :=
  st.books.foldl (apiSummarizeBook env) st

/-- One generated initial summary with its chapter metadata
(the `summaries` array items built in the `POST /api/books` handler). -/
structure InitItem where
  chapterNumber : Nat
  chapterTitle : String
  summaryText : String
  image : Option String
deriving DecidableEq

/-- Per-chapter step of the initial-summaries block of `POST /api/books`
(part_003:75-137): fetch content, and when it is long enough summarize,
illustrate, record the item and append a `summarized` history entry;
per-chapter errors are caught and skipped. -/
def initialChapterStep (env : Env) (bookTitle : String) (bookId : Nat)
    (acc : Storage × List InitItem) (c : Chapter) : Storage × List InitItem :=
  match env.content c.url with
  | .error _ => acc
  | .ok text =>
    if text.length > 100 then
      match env.summarizeChapter text c.title bookTitle with
      | .error _ => acc
      | .ok summaryText =>
        let image := env.illustrate summaryText
        let st1 := addHistoryEntry env acc.1 bookId c.number c.title c.url .summarized
        (st1, acc.2 ++ [{ chapterNumber := c.number, chapterTitle := c.title,
                          summaryText := summaryText, image := image }])
    else acc

/-- The combined initial-summary text stored by `POST /api/books`
(part_003:151-152). -/
def initialSummaryText (bookTitle : String) (items : List InitItem) : String :=
  String.intercalate "\n\n"
    ((s!"Initial summaries for \x22{bookTitle}\x22:\n") ::
      items.map (fun s => s!"Chapter {s.chapterNumber}: {s.chapterTitle}\n\n{s.summaryText}"))

/-- `POST /api/books` (part_003:40-182): reject a missing or already-tracked
URL with 400; otherwise scrape (500 on failure), register the book, then
run the initial-summaries block over the most recent chapters and store a
combined Summary if any were produced.  Registration is never rolled back
by a summarization failure. -/
def postBooksApi (body : Option String) (env : Env) (st : Storage) : Nat × Storage :=
  match body with
  | none => (400, st)
  | some url =>
    match st.books.find? (fun b => b.url == url) with
    | some _ => (400, st)
    | none =>
      match scrapeBookInfo env url with
      | .error _ => (500, st)
      | .ok bookInfo =>
        let reg := addBook env st bookInfo
        let newBook := reg.1
        let recentChapters :=
          if bookInfo.chapters.length == 1 then bookInfo.chapters
          else bookInfo.chapters.drop (bookInfo.chapters.length - 3)
        let processed := recentChapters.foldl
          (initialChapterStep env bookInfo.title newBook.id) (reg.2, ([] : List InitItem))
        let st2 :=
          if processed.2.length > 0 then
            addSummary env processed.1
              { bookId := newBook.id, bookTitle := bookInfo.title,
                chapters := processed.2.map (fun s =>
                  { number := s.chapterNumber, title := s.chapterTitle,
                    url := ((recentChapters.find? (fun c => c.number == s.chapterNumber)).map
                      (fun c => c.url)).getD "" }),
                summary := initialSummaryText bookInfo.title processed.2,
                imageUrl := ((processed.2.find? (fun s => s.image.isSome)).map
                  (fun s => s.image)).getD none }
          else processed.1
        (201, st2)

/-- `DELETE /api/books/:id` (part_003:184-196): remove the book (404 when
absent), then cascade-remove its summaries; history is untouched. -/
def apiDeleteBook (bookId : Nat) (st : Storage) : Nat × Storage :=
  match removeBook st bookId with
  | .error _ => (404, st)
  | .ok st1 => (200, removeSummariesByBookId st1 bookId)

/-- Watermark monotonicity relation between two storage states: the book
list keeps its length and ids positionally, and no book's `lastChapter`
decreases. -/
def BooksMono (st st' : Storage) : Prop :=
  List.Forall₂ (fun b b' => b'.id = b.id ∧ b.lastChapter ≤ b'.lastChapter) st.books st'.books

/-- The four registry-mutating check/summarize operations of the system,
for stating invariants uniformly. -/
inductive SysOp where
  | scheduledCheck (wasRunning : Bool)
  | perBookCheck (bookId : Nat)
  | batchCheck
  | batchSummarize
deriving DecidableEq

/-- Apply a system operation to the storage. -/
def applySysOp (op : SysOp) (env : Env) (st : Storage) : Storage :=
  match op with
  | .scheduledCheck wasRunning => (checkAllBooks env { isRunning := wasRunning, store := st }).1.store
  | .perBookCheck bookId => (apiCheckBook env bookId st).2
  | .batchCheck => apiCheckAll env st
  | .batchSummarize => apiSummarize env st

/-- True iff some `histEv` event for `bookId` occurs strictly after some
`update` event for `bookId` in the trace. -/
def histAfterUpdate (bookId : Nat) : List Ev → Bool
  | [] => false
  | Ev.update b _ :: rest =>
    (b == bookId && rest.any (fun e => match e with
      | Ev.histEv b' _ _ => b' == bookId
      | _ => false)) || histAfterUpdate bookId rest
  | Ev.histEv _ _ _ :: rest => histAfterUpdate bookId rest

/-- Projection of a history entry to the data the audit claims talk about. -/
def histKey (h : HistoryEntry) : Nat × HistoryAction := (h.chapterNumber, h.action)

/-- The book a trace event belongs to. -/
def evBookId : Ev → Nat
  | .update bid _ => bid
  | .histEv bid _ _ => bid

/-- Whether a trace event is a Book-record write. -/
def isUpdateEv : Ev → Bool
  | .update _ _ => true
  | .histEv _ _ _ => false

/-! ### Concrete test fixtures (used by witnesses and counterexamples) -/

/-- Chapter 6 of the spec's end-to-end scenario. -/
def chap6 : Chapter := { number := 6, title := "chapter 6", url := "u6" }

/-- Chapter 7 of the spec's end-to-end scenario. -/
def chap7 : Chapter := { number := 7, title := "chapter 7", url := "u7" }

/-- An environment whose scrape discovers chapters 7 and 6 (in that
discovery order) and whose summarizer and content fetch always succeed. -/
def envA : Env :=
  { scrape := fun _ => .ok { title := "Book", found := [chap7, chap6] },
    content := fun _ => .ok "text",
    summarizeChapter := fun _ _ _ => .ok "sum",
    summarizeMultiple := fun _ _ => .ok "sum",
    illustrate := fun _ => none,
    now := 1000 }

/-- An environment whose scrape succeeds but discovers zero chapters. -/
def envEmpty : Env :=
  { scrape := fun _ => .ok { title := "Book", found := [] },
    content := fun _ => .ok "text",
    summarizeChapter := fun _ _ _ => .ok "sum",
    summarizeMultiple := fun _ _ => .ok "sum",
    illustrate := fun _ => none,
    now := 1000 }

/-- An environment whose scrape always fails. -/
def envErr : Env :=
  { scrape := fun _ => .error "network down",
    content := fun _ => .error "network down",
    summarizeChapter := fun _ _ _ => .error "network down",
    summarizeMultiple := fun _ _ => .error "network down",
    illustrate := fun _ => none,
    now := 30 * msPerDay }

/-- A tracked book with watermark 5 (the spec's end-to-end scenario). -/
def bookA : Book :=
  { id := 1, url := "u", title := "Book", lastChapter := 5, totalChapters := 5,
    dateAdded := 0, lastUpdated := 0, lastChecked := 0 }

/-- A second tracked book, untouched by operations on `bookA`. -/
def bookB : Book :=
  { id := 2, url := "v", title := "Other", lastChapter := 3, totalChapters := 3,
    dateAdded := 0, lastUpdated := 0, lastChecked := 0 }

/-- A summary owned by `bookA`. -/
def sumA : Summary :=
  { id := 30, bookId := 1, bookTitle := "Book", chapters := [], summary := "sa", date := 0 }

/-- A summary owned by `bookB`. -/
def sumB : Summary :=
  { id := 31, bookId := 2, bookTitle := "Other", chapters := [], summary := "sb", date := 0 }

/-- A history entry for `bookA`. -/
def histA : HistoryEntry :=
  { id := 40, bookId := 1, chapterNumber := 5, chapterTitle := "chapter 5",
    chapterUrl := "u5", action := .detected, date := 0 }

/-- Registry with the single book `bookA`. -/
def stA : Storage := { books := [bookA], summaries := [], history := [], nextId := 10 }

/-- The empty storage. -/
def stEmpty : Storage := { books := [], summaries := [], history := [], nextId := 0 }

/-- Registry with two books, their summaries, and a history entry. -/
def stB : Storage :=
  { books := [bookA, bookB], summaries := [sumA, sumB], history := [histA], nextId := 50 }

/-- A summary dated exactly at the retention cutoff of `envErr.now` minus 30 days. -/
def sumCut : Summary :=
  { id := 60, bookId := 1, bookTitle := "Book", chapters := [], summary := "old", date := 0 }

/-- Storage holding only the boundary-dated summary `sumCut`. -/
def stCut : Storage := { books := [], summaries := [sumCut], history := [], nextId := 61 }

/-! ### Lemmas: the chapter differ -/

theorem sortChapters_perm (l : List Chapter) : List.Perm (sortChapters l) l :=
  List.perm_insertionSort chapterLE l

theorem sortChapters_sorted (l : List Chapter) :
    (sortChapters l).Pairwise (fun a b => a.number ≤ b.number) :=
  List.sorted_insertionSort chapterLE l

theorem filter_sortChapters (l : List Chapter) (p : Chapter → Bool)
    (hp : ∀ a b, p a = true → p b = true → a.number ≤ b.number) :
    (sortChapters l).filter p = l.filter p := by
  have hpw : (l.filter p).Pairwise chapterLE := by
    refine List.pairwise_of_forall_mem_list ?_
    intro a ha b hb
    exact hp a b (List.of_mem_filter ha) (List.of_mem_filter hb)
  have hsub : List.Sublist (l.filter p) (sortChapters l) :=
    List.sublist_insertionSort hpw (List.filter_sublist l)
  have hperm : List.Perm ((sortChapters l).filter p) (l.filter p) :=
    (sortChapters_perm l).filter p
  have hsub2 : List.Sublist ((l.filter p).filter p) ((sortChapters l).filter p) :=
    hsub.filter p
  have hself : (l.filter p).filter p = l.filter p :=
    List.filter_eq_self.mpr (fun a ha => List.of_mem_filter ha)
  rw [hself] at hsub2
  exact (hsub2.eq_of_length hperm.length_eq.symm).symm

/-- C1: for every watermark `w` and every discovered chapter list `C`, the
chapter differ returns exactly the elements of `C` with number strictly
greater than `w` (same multiset; chapters with `number ≤ w` are silently
dropped, no error is possible), sorted ascending by number with ties kept
in discovery order (for each key `k` the subsequence with number `k`
equals the one of `C`), and on the scrape path with a non-empty extraction
this is exactly the `newChapters` field of `checkForNewChapters`. -/
theorem chapterDiff_newChapters_exact (w : Nat) (C : List Chapter) :
    List.Perm (diffNewChapters w C) (C.filter (fun c => c.number > w)) ∧
    (diffNewChapters w C).Pairwise (fun a b => a.number ≤ b.number) ∧
    (∀ k, (diffNewChapters w C).filter (fun c => c.number == k)
        = (C.filter (fun c => c.number > w)).filter (fun c => c.number == k)) ∧
    (∀ env url page, env.scrape url = .ok page → sortChapters page.found ≠ [] →
        (checkForNewChapters env url w).newChapters = diffNewChapters w page.found) := by
  refine ⟨(sortChapters_perm C).filter _, (sortChapters_sorted C).filter _, ?_, ?_⟩
  · intro k
    have h1 : (diffNewChapters w C).filter (fun c => c.number == k)
        = C.filter (fun c => (c.number == k) && (c.number > w)) := by
      unfold diffNewChapters
      rw [List.filter_filter]
      refine filter_sortChapters C _ (fun a b ha hb => ?_)
      simp only [Bool.and_eq_true, beq_iff_eq, decide_eq_true_eq] at ha hb
      omega
    rw [h1, List.filter_filter]
  · intro env url page hscrape hne
    simp only [checkForNewChapters, scrapeBookInfo, hscrape, diffNewChapters,
      List.isEmpty_iff, hne, if_false]

theorem chapterDiff_newChapters_exact_witness :
    (checkForNewChapters envA "u" 5).newChapters = diffNewChapters 5 [chap7, chap6] :=
  (chapterDiff_newChapters_exact 5 [chap7, chap6]).2.2.2 envA "u"
    { title := "Book", found := [chap7, chap6] } rfl (by decide)

/-- C10: `checkForNewChapters` is total at its interface (it is a function
into `ChapterCheckResult`); whenever the underlying scrape fails, for every
watermark the result is `hasNewChapters = false`, `newChapters = []`,
`totalChapters = 0`, `lastChapter = 0` — not the caller's prior watermark —
and the error field carries the wrapped message. -/
theorem checkForNewChapters_total_failure (env : Env) (url : String) (w : Nat) (e : String)
    (h : env.scrape url = .error e) :
    checkForNewChapters env url w =
      { hasNewChapters := false, newChapters := [], totalChapters := 0,
        lastChapter := 0, error := some ("Failed to scrape book: " ++ e) } := by
  simp [checkForNewChapters, scrapeBookInfo, h]

theorem checkForNewChapters_total_failure_witness :
    checkForNewChapters envErr "u" 5 =
      { hasNewChapters := false, newChapters := [], totalChapters := 0,
        lastChapter := 0, error := some ("Failed to scrape book: " ++ "network down") } :=
  checkForNewChapters_total_failure envErr "u" 5 "network down" rfl

/-- C2 counterexample: with prior watermark 5, a successful scrape that
discovered zero chapters reports `lastChapter = 1` (the synthetic chapter),
and a failed fetch reports `lastChapter = 0`; neither equals 5, so the
reported watermark is not the prior watermark and does decrease. -/
theorem emptyScrape_watermark_counterexample :
    envEmpty.scrape "u" = .ok { title := "Book", found := [] } ∧
    (checkForNewChapters envEmpty "u" 5).newChapters = [] ∧
    (checkForNewChapters envEmpty "u" 5).lastChapter ≠ 5 ∧
    (checkForNewChapters envErr "u" 5).lastChapter ≠ 5 :=
  ⟨rfl, by decide, by decide, by decide⟩

/-- C2 (amended): diffing watermark `w` against a successful scrape that
discovered zero chapters yields the synthetic single-page-chapter result:
`newChapters` is the synthetic chapter 1 when `w < 1` and `[]` otherwise,
and the reported `lastChapter` is `1`; when the underlying fetch fails the
result is empty with `lastChapter = 0` and the error recorded.  The
reported watermark is thus `1` resp. `0`, not the prior watermark `w`. -/
theorem emptyScrape_diff_amended (env : Env) (url : String) (w : Nat) (title : String) :
    (env.scrape url = .ok { title := title, found := [] } →
      checkForNewChapters env url w =
        { hasNewChapters := decide (0 < 1 - w),
          newChapters := if w < 1 then [{ number := 1, title := title, url := url }] else [],
          totalChapters := 1, lastChapter := 1, error := none }) ∧
    (∀ e, env.scrape url = .error e →
      checkForNewChapters env url w =
        { hasNewChapters := false, newChapters := [], totalChapters := 0,
          lastChapter := 0, error := some ("Failed to scrape book: " ++ e) }) := by
  constructor
  · intro h
    by_cases hw : w < 1 <;>
      simp_all [checkForNewChapters, scrapeBookInfo, sortChapters]
  · intro e h
    simp [checkForNewChapters, scrapeBookInfo, h]

theorem emptyScrape_diff_amended_witness :
    checkForNewChapters envEmpty "u" 5 =
      { hasNewChapters := decide (0 < 1 - 5),
        newChapters := if 5 < 1 then [{ number := 1, title := "Book", url := "u" }] else [],
        totalChapters := 1, lastChapter := 1, error := none } :=
  (emptyScrape_diff_amended envEmpty "u" 5 "Book").1 rfl

/-! ### Lemmas: the scrape result -/

theorem pairwise_le_getLast (l : List Chapter) :
    l.Pairwise (fun a b => a.number ≤ b.number) →
    ∀ c ∈ l, c.number ≤ ((l.getLast?).map (fun x => x.number)).getD 0 := by
  induction l with
  | nil => intro _ c hc; cases hc
  | cons a t ih =>
    intro hs c hc
    cases t with
    | nil =>
      rcases List.mem_singleton.mp hc with h
      subst h
      simp
    | cons b t2 =>
      rw [List.getLast?_cons_cons]
      rcases List.mem_cons.mp hc with h | h
      · subst h
        cases e : (b :: t2).getLast? with
        | none => simp [List.getLast?_eq_none_iff] at e
        | some x =>
          have hxm : x ∈ b :: t2 := List.mem_of_getLast?_eq_some e
          have hax := (List.pairwise_cons.mp hs).1 x hxm
          simpa using hax
      · exact ih (List.pairwise_cons.mp hs).2 c h

theorem scrapeBookInfo_ok (env : Env) (url : String) (bi : BookInfo)
    (h : scrapeBookInfo env url = .ok bi) :
    bi.chapters.Pairwise (fun a b => a.number ≤ b.number) ∧ bi.chapters ≠ [] ∧
    bi.lastChapter = ((bi.chapters.getLast?).map (fun x => x.number)).getD 0 := by
  unfold scrapeBookInfo at h
  cases e : env.scrape url with
  | error s => rw [e] at h; cases h
  | ok page =>
    rw [e] at h
    simp only [Except.ok.injEq] at h
    subst h
    by_cases hemp : sortChapters page.found = []
    · simp [hemp]
    · refine ⟨?_, ?_, ?_⟩
      · simpa [List.isEmpty_iff, hemp] using sortChapters_sorted page.found
      · simp [List.isEmpty_iff, hemp]
      · simp [List.isEmpty_iff, hemp]

theorem checkForNewChapters_hasNew_gt (env : Env) (url : String) (w : Nat) :
    (checkForNewChapters env url w).hasNewChapters = true →
    w < (checkForNewChapters env url w).lastChapter := by
  unfold checkForNewChapters
  cases e : scrapeBookInfo env url with
  | error s => simp
  | ok bi =>
    simp only [decide_eq_true_eq, gt_iff_lt]
    intro hh
    obtain ⟨c, hc⟩ := List.exists_mem_of_length_pos hh
    have hcm := List.mem_filter.mp hc
    obtain ⟨hsorted, _, hlast⟩ := scrapeBookInfo_ok env url bi e
    have h1 : w < c.number := by
      have := hcm.2
      simpa using this
    have h2 : c.number ≤ bi.lastChapter := by
      rw [hlast]
      exact pairwise_le_getLast bi.chapters hsorted c hcm.1
    omega

theorem checkForNewChapters_not_hasNew (env : Env) (url : String) (w : Nat) :
    (checkForNewChapters env url w).hasNewChapters = false →
    (checkForNewChapters env url w).newChapters = [] := by
  unfold checkForNewChapters
  cases e : scrapeBookInfo env url with
  | error s => simp
  | ok bi =>
    simp only [decide_eq_true_eq]
    intro hh
    simp only [decide_eq_false_iff_not, Nat.not_lt, Nat.le_zero, List.length_eq_zero] at hh
    exact hh

theorem checkForNewChapters_sorted (env : Env) (url : String) (w : Nat) :
    (checkForNewChapters env url w).newChapters.Pairwise (fun a b => a.number ≤ b.number) := by
  unfold checkForNewChapters
  cases e : scrapeBookInfo env url with
  | error s => simp
  | ok bi =>
    simp only []
    exact ((scrapeBookInfo_ok env url bi e).1).filter _

/-- C3: invoking `checkAllBooks` while a run is in progress is a no-op (the
state, including every book's watermark, is returned unchanged and no event
is emitted), so at most one reconciliation pass executes at a time; and
for any run body — including one that raises — an invocation that does
enter the guarded section leaves the run-guard flag cleared (`Idle`). -/
theorem runGuard_exclusive (env : Env) (s : SchedState) :
    (s.isRunning = true →
       checkAllBooks env s = (s, []) ∧ (checkAllBooks env s).1.store = s.store) ∧
    (s.isRunning = false →
       ∀ body : Storage → RunOutcome, ((checkAllBooksGuard body s).1).isRunning = false) := by
  constructor
  · intro h
    constructor <;> simp [checkAllBooks, checkAllBooksGuard, h]
  · intro h body
    simp [checkAllBooksGuard, h]

theorem runGuard_exclusive_witness :
    checkAllBooks envA { isRunning := true, store := stA } =
      ({ isRunning := true, store := stA }, []) :=
  ((runGuard_exclusive envA { isRunning := true, store := stA }).1 rfl).1

/-! ### Lemmas: the storage layer and watermark monotonicity -/

theorem booksMono_refl (st : Storage) : BooksMono st st :=
  List.forall₂_same.mpr (fun _ _ => ⟨rfl, Nat.le_refl _⟩)

theorem booksMono_of_books_eq (st st' : Storage) (h : st'.books = st.books) :
    BooksMono st st' := by
  unfold BooksMono
  rw [h]
  exact List.forall₂_same.mpr (fun _ _ => ⟨rfl, Nat.le_refl _⟩)

theorem forall₂_mono_trans (l1 l2 l3 : List Book)
    (h1 : List.Forall₂ (fun b b' => b'.id = b.id ∧ b.lastChapter ≤ b'.lastChapter) l1 l2)
    (h2 : List.Forall₂ (fun b b' => b'.id = b.id ∧ b.lastChapter ≤ b'.lastChapter) l2 l3) :
    List.Forall₂ (fun b b' => b'.id = b.id ∧ b.lastChapter ≤ b'.lastChapter) l1 l3 := by
  induction h1 generalizing l3 with
  | nil =>
    cases h2
    exact List.Forall₂.nil
  | cons hab hrest ih =>
    cases h2 with
    | cons hbc hrest2 =>
      exact List.Forall₂.cons ⟨hbc.1.trans hab.1, hab.2.trans hbc.2⟩ (ih _ hrest2)

theorem booksMono_trans (s1 s2 s3 : Storage) (h1 : BooksMono s1 s2) (h2 : BooksMono s2 s3) :
    BooksMono s1 s3 :=
  forall₂_mono_trans s1.books s2.books s3.books h1 h2

theorem forall₂_mono_modify (bs : List Book) (i : Nat) (f : Book → Book)
    (hid : ∀ b, (f b).id = b.id)
    (hone : ∀ b, bs[i]? = some b → b.lastChapter ≤ (f b).lastChapter) :
    List.Forall₂ (fun b b' => b'.id = b.id ∧ b.lastChapter ≤ b'.lastChapter)
      bs (bs.modify f i) := by
  induction bs generalizing i with
  | nil =>
    rw [List.modify_nil]
    exact List.Forall₂.nil
  | cons a t ih =>
    cases i with
    | zero =>
      rw [List.modify_zero_cons]
      exact List.Forall₂.cons ⟨hid a, hone a (by simp)⟩
        (List.forall₂_same.mpr (fun _ _ => ⟨rfl, Nat.le_refl _⟩))
    | succ n =>
      rw [List.modify_succ_cons]
      refine List.Forall₂.cons ⟨rfl, Nat.le_refl _⟩ (ih n ?_)
      intro b hb
      exact hone b (by simpa using hb)

theorem map_id_modify (bs : List Book) (i : Nat) (f : Book → Book)
    (hid : ∀ b, (f b).id = b.id) :
    (bs.modify f i).map (fun x => x.id) = bs.map (fun x => x.id) := by
  induction bs generalizing i with
  | nil => simp
  | cons a t ih =>
    cases i with
    | zero => simp [hid]
    | succ n => simp [ih n]

theorem mem_modify_of_ne (bs : List Book) (i : Nat) (f : Book → Book) (x : Book) :
    x ∈ bs → (∀ b, bs[i]? = some b → x ≠ b) → x ∈ bs.modify f i := by
  induction bs generalizing i with
  | nil =>
    intro hx _
    cases hx
  | cons a t ih =>
    intro hx hne
    cases i with
    | zero =>
      rw [List.modify_zero_cons]
      rcases List.mem_cons.mp hx with h | h
      · exact absurd h (hne a (by simp))
      · exact List.mem_cons_of_mem _ h
    | succ n =>
      rw [List.modify_succ_cons]
      rcases List.mem_cons.mp hx with h | h
      · exact h ▸ List.mem_cons_self a _
      · refine List.mem_cons_of_mem _ (ih n h ?_)
        intro b hb
        exact hne b (by simpa using hb)

theorem findIdx_id_self (bs : List Book) (b : Book) (tid : Nat)
    (hnd : (bs.map (fun x => x.id)).Nodup) (hb : b ∈ bs) (hid : b.id = tid) :
    ∃ i, bs.findIdx? (fun x => x.id == tid) = some i ∧ bs[i]? = some b := by
  induction bs with
  | nil => cases hb
  | cons a t ih =>
    have hndc : a.id ∉ t.map (fun x => x.id) ∧ (t.map (fun x => x.id)).Nodup :=
      List.nodup_cons.mp (by simpa using hnd)
    by_cases ha : a.id = tid
    · refine ⟨0, ?_, ?_⟩
      · simp [List.findIdx?_cons, ha]
      · rcases List.mem_cons.mp hb with h | h
        · simp [h]
        · exfalso
          have h1 : b.id ∈ t.map (fun x => x.id) := List.mem_map_of_mem _ h
          rw [hid, ← ha] at h1
          exact hndc.1 h1
    · have hbt : b ∈ t := by
        rcases List.mem_cons.mp hb with h | h
        · exact absurd (h ▸ hid) ha
        · exact h
      obtain ⟨i, hi, hgi⟩ := ih hndc.2 hbt
      refine ⟨i + 1, ?_, ?_⟩
      · simp [List.findIdx?_cons, ha, List.findIdx?_succ, hi]
      · simpa using hgi

theorem updateBook_eq_of_findIdx (env : Env) (st : Storage) (tid : Nat) (u : BookUpdates)
    (i : Nat) (hi : st.books.findIdx? (fun x => x.id == tid) = some i) :
    updateBook env st tid u =
      .ok { st with books := st.books.modify (fun b => applyUpdates env b u) i } := by
  unfold updateBook
  rw [hi]

theorem updateBook_snapshot (env : Env) (st : Storage) (b : Book) (tid : Nat) (u : BookUpdates)
    (hnd : (st.books.map (fun x => x.id)).Nodup) (hb : b ∈ st.books) (hid : b.id = tid)
    (hv : b.lastChapter ≤ (applyUpdates env b u).lastChapter) :
    ∃ st1, updateBook env st tid u = .ok st1 ∧
      BooksMono st st1 ∧
      st1.books.map (fun x => x.id) = st.books.map (fun x => x.id) ∧
      (∀ x ∈ st.books, x.id ≠ b.id → x ∈ st1.books) ∧
      st1.summaries = st.summaries ∧ st1.history = st.history ∧ st1.nextId = st.nextId := by
  obtain ⟨i, hi, hbi⟩ := findIdx_id_self st.books b tid hnd hb hid
  refine ⟨_, updateBook_eq_of_findIdx env st tid u i hi, ?_, ?_, ?_, rfl, rfl, rfl⟩
  · refine forall₂_mono_modify st.books i _ (fun _ => rfl) ?_
    intro y hy
    have hyb : b = y := by
      rw [hbi] at hy
      exact Option.some.inj hy
    rw [← hyb]
    exact hv
  · exact map_id_modify st.books i _ (fun _ => rfl)
  · intro x hx hxne
    refine mem_modify_of_ne st.books i _ x hx ?_
    intro y hy
    have hyb : b = y := by
      rw [hbi] at hy
      exact Option.some.inj hy
    rw [← hyb]
    intro hxy
    exact hxne (by rw [hxy])

theorem addHistoryEntry_books (env : Env) (st : Storage) (bid n : Nat) (t u : String)
    (a : HistoryAction) : (addHistoryEntry env st bid n t u a).books = st.books := rfl

theorem addSummary_books (env : Env) (st : Storage) (sd : SummaryData) :
    (addSummary env st sd).books = st.books := rfl

theorem schedHistFold_books (env : Env) (bid : Nat) (cs : List Chapter)
    (init : Storage × List Ev) :
    (cs.foldl (fun acc c =>
      (addHistoryEntry env acc.1 bid c.number c.title c.url .detected,
       acc.2 ++ [Ev.histEv bid c.number .detected])) init).1.books = init.1.books := by
  induction cs generalizing init with
  | nil => rfl
  | cons c cs ih =>
    rw [List.foldl_cons, ih]
    rfl

theorem processBook_stable (env : Env) (st : Storage) (b : Book)
    (hnd : (st.books.map (fun x => x.id)).Nodup) (hb : b ∈ st.books) :
    BooksMono st (processBook env st b).1 ∧
    (processBook env st b).1.books.map (fun x => x.id) = st.books.map (fun x => x.id) ∧
    (∀ x ∈ st.books, x.id ≠ b.id → x ∈ (processBook env st b).1.books) := by
  simp only [processBook]
  by_cases hnew : (checkForNewChapters env b.url b.lastChapter).hasNewChapters = true
  · have hlt := checkForNewChapters_hasNew_gt env b.url b.lastChapter hnew
    have hv : b.lastChapter ≤ (applyUpdates env b
        { lastChapter := some (checkForNewChapters env b.url b.lastChapter).lastChapter,
          totalChapters := some (checkForNewChapters env b.url b.lastChapter).totalChapters,
          lastChecked := some env.now }).lastChapter := by
      simp only [applyUpdates, Option.getD_some]
      omega
    obtain ⟨st1, hup, hmono, hids, hmem, -, -, -⟩ :=
      updateBook_snapshot env st b b.id _ hnd hb rfl hv
    rw [if_pos hnew, hup]
    simp only []
    have hbooks := schedHistFold_books env b.id
      (checkForNewChapters env b.url b.lastChapter).newChapters (st1, ([] : List Ev))
    refine ⟨?_, ?_, ?_⟩
    · exact booksMono_trans _ _ _ hmono (booksMono_of_books_eq _ _ hbooks)
    · rw [hbooks]
      exact hids
    · intro x hx hxne
      rw [hbooks]
      exact hmem x hx hxne
  · have hv : b.lastChapter ≤ (applyUpdates env b
        { lastChecked := some env.now }).lastChapter := by
      simp [applyUpdates]
    obtain ⟨st1, hup, hmono, hids, hmem, -, -, -⟩ :=
      updateBook_snapshot env st b b.id _ hnd hb rfl hv
    rw [if_neg hnew, hup]
    exact ⟨hmono, hids, hmem⟩

theorem runBooks_fst_eq_foldl (env : Env) (bs : List Book) (st : Storage) :
    (runBooks env bs st).1 = bs.foldl (fun s b => (processBook env s b).1) st := by
  induction bs generalizing st with
  | nil => rfl
  | cons b t ih => simp [runBooks, ih]

theorem foldBooks_stable (f : Storage → Book → Storage)
    (hf : ∀ st b, (st.books.map (fun x => x.id)).Nodup → b ∈ st.books →
       BooksMono st (f st b) ∧
       (f st b).books.map (fun x => x.id) = st.books.map (fun x => x.id) ∧
       (∀ x ∈ st.books, x.id ≠ b.id → x ∈ (f st b).books))
    (bs : List Book) (st : Storage) :
    (st.books.map (fun x => x.id)).Nodup →
    (bs.map (fun x => x.id)).Nodup →
    (∀ b ∈ bs, b ∈ st.books) →
    BooksMono st (bs.foldl f st) := by
  induction bs generalizing st with
  | nil =>
    intro _ _ _
    exact booksMono_refl st
  | cons b t ih =>
    intro hnd hbs hpend
    rw [List.foldl_cons]
    obtain ⟨h1, h2, h3⟩ := hf st b hnd (hpend b (List.mem_cons_self b t))
    refine booksMono_trans _ _ _ h1 (ih (f st b) ?_ ?_ ?_)
    · rw [h2]
      exact hnd
    · exact (List.nodup_cons.mp (by simpa using hbs)).2
    · intro x hx
      have hxs : x ∈ st.books := hpend x (List.mem_cons_of_mem b hx)
      refine h3 x hxs ?_
      have hb_not : b.id ∉ t.map (fun y => y.id) := (List.nodup_cons.mp (by simpa using hbs)).1
      intro he
      exact hb_not (he ▸ List.mem_map_of_mem _ hx)

theorem apiHistFold_books (env : Env) (bid : Nat) (cs : List Chapter) (init : Storage) :
    (cs.foldl (fun acc c => addHistoryEntry env acc bid c.number c.title c.url .detected)
      init).books = init.books := by
  induction cs generalizing init with
  | nil => rfl
  | cons c cs ih =>
    rw [List.foldl_cons, ih]
    rfl

theorem apiCheckAllBook_stable (env : Env) (st : Storage) (b : Book)
    (hnd : (st.books.map (fun x => x.id)).Nodup) (hb : b ∈ st.books) :
    BooksMono st (apiCheckAllBook env st b) ∧
    (apiCheckAllBook env st b).books.map (fun x => x.id) = st.books.map (fun x => x.id) ∧
    (∀ x ∈ st.books, x.id ≠ b.id → x ∈ (apiCheckAllBook env st b).books) := by
  simp only [apiCheckAllBook]
  by_cases hnew : (checkForNewChapters env b.url b.lastChapter).hasNewChapters = true
  · have hlt := checkForNewChapters_hasNew_gt env b.url b.lastChapter hnew
    have hv : b.lastChapter ≤ (applyUpdates env b
        { lastChapter := some (checkForNewChapters env b.url b.lastChapter).lastChapter,
          totalChapters := some (checkForNewChapters env b.url b.lastChapter).totalChapters,
          lastChecked := some env.now }).lastChapter := by
      simp only [applyUpdates, Option.getD_some]
      omega
    obtain ⟨st1, hup, hmono, hids, hmem, -, -, -⟩ :=
      updateBook_snapshot env st b b.id _ hnd hb rfl hv
    rw [if_pos hnew, hup]
    simp only []
    have hbooks := apiHistFold_books env b.id
      (checkForNewChapters env b.url b.lastChapter).newChapters st1
    refine ⟨?_, ?_, ?_⟩
    · exact booksMono_trans _ _ _ hmono (booksMono_of_books_eq _ _ hbooks)
    · rw [hbooks]
      exact hids
    · intro x hx hxne
      rw [hbooks]
      exact hmem x hx hxne
  · rw [if_neg hnew]
    exact ⟨booksMono_refl st, rfl, fun x hx _ => hx⟩

theorem apiSummarizeBook_stable (env : Env) (st : Storage) (b : Book)
    (hnd : (st.books.map (fun x => x.id)).Nodup) (hb : b ∈ st.books) :
    BooksMono st (apiSummarizeBook env st b) ∧
    (apiSummarizeBook env st b).books.map (fun x => x.id) = st.books.map (fun x => x.id) ∧
    (∀ x ∈ st.books, x.id ≠ b.id → x ∈ (apiSummarizeBook env st b).books) := by
  simp only [apiSummarizeBook]
  by_cases hnew : (checkForNewChapters env b.url b.lastChapter).hasNewChapters = true
  · rw [if_pos hnew]
    by_cases hlen : 0 < ((checkForNewChapters env b.url b.lastChapter).newChapters.filterMap
        (fun c => match env.content c.url with
          | .ok text => some { c with content := some text }
          | .error _ => none)).length
    · rw [if_pos hlen]
      cases hsum : env.summarizeMultiple
          ((checkForNewChapters env b.url b.lastChapter).newChapters.filterMap
            (fun c => match env.content c.url with
              | .ok text => some { c with content := some text }
              | .error _ => none)) b.title with
      | error e => exact ⟨booksMono_refl st, rfl, fun x hx _ => hx⟩
      | ok summaryText =>
        simp only []
        have hlt := checkForNewChapters_hasNew_gt env b.url b.lastChapter hnew
        have hv : b.lastChapter ≤ (applyUpdates env b
            { lastChapter := some (checkForNewChapters env b.url b.lastChapter).lastChapter,
              totalChapters := some (checkForNewChapters env b.url b.lastChapter).totalChapters,
              lastChecked := some env.now }).lastChapter := by
          simp only [applyUpdates, Option.getD_some]
          omega
        have hnd1 : ((addSummary env st
            { bookId := b.id, bookTitle := b.title,
              chapters := ((checkForNewChapters env b.url b.lastChapter).newChapters.filterMap
                (fun c => match env.content c.url with
                  | .ok text => some { c with content := some text }
                  | .error _ => none)).map (fun c =>
                    { number := c.number, title := c.title, url := c.url }),
              summary := summaryText }).books.map (fun x => x.id)).Nodup := hnd
        obtain ⟨st2, hup, hmono, hids, hmem, -, -, -⟩ :=
          updateBook_snapshot env _ b b.id
            { lastChapter := some (checkForNewChapters env b.url b.lastChapter).lastChapter,
              totalChapters := some (checkForNewChapters env b.url b.lastChapter).totalChapters,
              lastChecked := some env.now } hnd1 hb rfl hv
        rw [hup]
        exact ⟨hmono, hids, hmem⟩
    · rw [if_neg hlen]
      exact ⟨booksMono_refl st, rfl, fun x hx _ => hx⟩
  · rw [if_neg hnew]
    exact ⟨booksMono_refl st, rfl, fun x hx _ => hx⟩

theorem apiCheckBook_mono (env : Env) (bookId : Nat) (st : Storage)
    (hnd : (st.books.map (fun x => x.id)).Nodup) :
    BooksMono st (apiCheckBook env bookId st).2 := by
  simp only [apiCheckBook]
  cases hfind : getBookById st bookId with
  | none => exact booksMono_refl st
  | some book =>
    simp only []
    have hfind2 : st.books.find? (fun b => b.id == bookId) = some book := hfind
    have hbm : book ∈ st.books := List.mem_of_find?_eq_some hfind2
    have hbid : book.id = bookId := by
      have h := List.find?_some hfind2
      simpa using h
    by_cases hnew : (checkForNewChapters env book.url book.lastChapter).hasNewChapters = true
    · rw [if_pos hnew]
      have hlt := checkForNewChapters_hasNew_gt env book.url book.lastChapter hnew
      have hv : book.lastChapter ≤ (applyUpdates env book
          { lastChapter := some (checkForNewChapters env book.url book.lastChapter).lastChapter,
            totalChapters :=
              some (checkForNewChapters env book.url book.lastChapter).totalChapters,
            lastChecked := some env.now }).lastChapter := by
        simp only [applyUpdates, Option.getD_some]
        omega
      obtain ⟨st1, hup, hmono, -, -, -, -, -⟩ :=
        updateBook_snapshot env st book bookId _ hnd hbm hbid hv
      rw [hup]
      exact hmono
    · rw [if_neg hnew]
      exact booksMono_refl st

theorem forall₂_mono_map_id (l1 l2 : List Book)
    (h : List.Forall₂ (fun b b' => b'.id = b.id ∧ b.lastChapter ≤ b'.lastChapter) l1 l2) :
    l2.map (fun x => x.id) = l1.map (fun x => x.id) := by
  induction h with
  | nil => rfl
  | cons hab _ ih => simp [hab.1, ih]

theorem booksMono_mem_of_nodup (st st' : Storage) (h : BooksMono st st')
    (hnd : (st.books.map (fun x => x.id)).Nodup) :
    ∀ b ∈ st.books, ∀ b' ∈ st'.books, b'.id = b.id → b.lastChapter ≤ b'.lastChapter := by
  intro b hb b' hb' hid
  obtain ⟨hlen, hget⟩ := List.forall₂_iff_get.mp h
  obtain ⟨j, hbj⟩ := List.mem_iff_get.mp hb'
  have hj1 : j.1 < st.books.length := by
    rw [hlen]
    exact j.2
  have hx := hget j.1 hj1 j.2
  have hb'eq : st'.books.get ⟨j.1, j.2⟩ = b' := hbj
  have hxm : st.books.get ⟨j.1, hj1⟩ ∈ st.books := List.get_mem st.books j.1 hj1
  have hideq : (st.books.get ⟨j.1, hj1⟩).id = b.id := by
    have h1 := hx.1
    rw [hb'eq] at h1
    rw [← h1, hid]
  have heq : st.books.get ⟨j.1, hj1⟩ = b :=
    List.inj_on_of_nodup_map hnd hxm hb hideq
  have hle := hx.2
  rw [heq, hb'eq] at hle
  exact hle

/-- C4: for every registry state with unique book ids, each of the four
watermark-touching operations — the scheduled reconciliation run (in either
guard state), the per-book check endpoint, the batch check, and the batch
summarize — preserves the book list's length and ids positionally and
never stores a `lastChapter` smaller than a book's current one: the
watermark is monotonically non-decreasing under every operation. -/
theorem watermark_monotone (op : SysOp) (env : Env) (st : Storage)
    (hnd : (st.books.map (fun x => x.id)).Nodup) :
    BooksMono st (applySysOp op env st) ∧
    (∀ b ∈ st.books, ∀ b' ∈ (applySysOp op env st).books,
       b'.id = b.id → b.lastChapter ≤ b'.lastChapter) := by
  have hmono : BooksMono st (applySysOp op env st) := by
    cases op with
    | scheduledCheck wasRunning =>
      cases wasRunning with
      | true => exact booksMono_of_books_eq st _ rfl
      | false =>
        have hstore : applySysOp (.scheduledCheck false) env st = (runBooks env st.books st).1 :=
          rfl
        rw [hstore, runBooks_fst_eq_foldl]
        exact foldBooks_stable _ (fun s b h1 h2 => processBook_stable env s b h1 h2)
          st.books st hnd hnd (fun b hb => hb)
    | perBookCheck bookId => exact apiCheckBook_mono env bookId st hnd
    | batchCheck =>
      show BooksMono st (st.books.foldl (apiCheckAllBook env) st)
      exact foldBooks_stable _ (fun s b h1 h2 => apiCheckAllBook_stable env s b h1 h2)
        st.books st hnd hnd (fun b hb => hb)
    | batchSummarize =>
      show BooksMono st (st.books.foldl (apiSummarizeBook env) st)
      exact foldBooks_stable _ (fun s b h1 h2 => apiSummarizeBook_stable env s b h1 h2)
        st.books st hnd hnd (fun b hb => hb)
  exact ⟨hmono, booksMono_mem_of_nodup st _ hmono hnd⟩

theorem watermark_monotone_witness :
    BooksMono stA (applySysOp .batchCheck envA stA) ∧
    (∀ b ∈ stA.books, ∀ b' ∈ (applySysOp .batchCheck envA stA).books,
       b'.id = b.id → b.lastChapter ≤ b'.lastChapter) :=
  watermark_monotone .batchCheck envA stA (by decide)

/-! ### Lemmas: history entries and the event trace of a reconciliation run -/

theorem schedHistFold_hist (env : Env) (bid : Nat) (cs : List Chapter)
    (init : Storage × List Ev) (x : Nat) :
    (((cs.foldl (fun acc c =>
        (addHistoryEntry env acc.1 bid c.number c.title c.url .detected,
         acc.2 ++ [Ev.histEv bid c.number .detected])) init).1.history.filter
          (fun h => h.bookId == x)).map histKey)
      = ((init.1.history.filter (fun h => h.bookId == x)).map histKey)
        ++ (if bid = x then cs.map (fun c => (c.number, HistoryAction.detected)) else []) := by
  induction cs generalizing init with
  | nil => simp
  | cons c cs ih =>
    rw [List.foldl_cons, ih]
    have h1 : (((addHistoryEntry env init.1 bid c.number c.title c.url .detected).history.filter
        (fun h => h.bookId == x)).map histKey)
        = ((init.1.history.filter (fun h => h.bookId == x)).map histKey)
          ++ (if bid = x then [(c.number, HistoryAction.detected)] else []) := by
      by_cases hbx : bid = x <;>
        simp [addHistoryEntry, List.filter_append, histKey, hbx]
    rw [h1]
    by_cases hbx : bid = x <;> simp [hbx]

theorem checkForNewChapters_hasNew_false (env : Env) (url : String) (w : Nat)
    (h : ¬(checkForNewChapters env url w).hasNewChapters = true) :
    (checkForNewChapters env url w).newChapters = [] := by
  refine checkForNewChapters_not_hasNew env url w ?_
  cases hc : (checkForNewChapters env url w).hasNewChapters with
  | true => exact absurd hc h
  | false => rfl

theorem processBook_hist (env : Env) (st : Storage) (b : Book) (x : Nat)
    (hnd : (st.books.map (fun y => y.id)).Nodup) (hb : b ∈ st.books) :
    ((processBook env st b).1.history.filter (fun h => h.bookId == x)).map histKey
      = ((st.history.filter (fun h => h.bookId == x)).map histKey)
        ++ (if b.id = x
            then (checkForNewChapters env b.url b.lastChapter).newChapters.map
                  (fun c => (c.number, HistoryAction.detected))
            else []) := by
  simp only [processBook]
  by_cases hnew : (checkForNewChapters env b.url b.lastChapter).hasNewChapters = true
  · have hlt := checkForNewChapters_hasNew_gt env b.url b.lastChapter hnew
    have hv : b.lastChapter ≤ (applyUpdates env b
        { lastChapter := some (checkForNewChapters env b.url b.lastChapter).lastChapter,
          totalChapters := some (checkForNewChapters env b.url b.lastChapter).totalChapters,
          lastChecked := some env.now }).lastChapter := by
      simp only [applyUpdates, Option.getD_some]
      omega
    obtain ⟨st1, hup, -, -, -, -, hhist, -⟩ :=
      updateBook_snapshot env st b b.id _ hnd hb rfl hv
    rw [if_pos hnew, hup]
    simp only []
    rw [schedHistFold_hist env b.id _ (st1, ([] : List Ev)) x]
    rw [hhist]
  · have hv : b.lastChapter ≤ (applyUpdates env b
        { lastChecked := some env.now }).lastChapter := by
      simp [applyUpdates]
    obtain ⟨st1, hup, -, -, -, -, hhist, -⟩ :=
      updateBook_snapshot env st b b.id _ hnd hb rfl hv
    rw [if_neg hnew, hup]
    simp only []
    rw [hhist]
    have hnil := checkForNewChapters_hasNew_false env b.url b.lastChapter hnew
    rw [hnil]
    by_cases hbx : b.id = x <;> simp [hbx]

theorem updateBook_ok_frame (env : Env) (st : Storage) (bookId : Nat) (u : BookUpdates)
    (st' : Storage) (h : updateBook env st bookId u = .ok st') :
    st'.summaries = st.summaries ∧ st'.history = st.history ∧ st'.nextId = st.nextId := by
  unfold updateBook at h
  cases e : st.books.findIdx? (fun b => b.id == bookId) with
  | none =>
    rw [e] at h
    cases h
  | some i =>
    rw [e] at h
    simp only [Except.ok.injEq] at h
    subst h
    exact ⟨rfl, rfl, rfl⟩

theorem processBook_hist_foreign (env : Env) (st : Storage) (b : Book) (x : Nat)
    (hx : b.id ≠ x) :
    ((processBook env st b).1.history.filter (fun h => h.bookId == x)).map histKey
      = (st.history.filter (fun h => h.bookId == x)).map histKey := by
  simp only [processBook]
  split
  · split
    · rfl
    · rename_i st1 heq
      simp only []
      rw [schedHistFold_hist env b.id _ (st1, ([] : List Ev)) x,
        (updateBook_ok_frame env st b.id _ st1 heq).2.1]
      simp [hx]
  · split
    · rfl
    · rename_i st1 heq
      simp only []
      rw [(updateBook_ok_frame env st b.id _ st1 heq).2.1]

theorem runBooks_hist_foreign (env : Env) (bs : List Book) (st : Storage) (x : Nat) :
    x ∉ bs.map (fun y => y.id) →
    ((runBooks env bs st).1.history.filter (fun h => h.bookId == x)).map histKey
      = (st.history.filter (fun h => h.bookId == x)).map histKey := by
  induction bs generalizing st with
  | nil =>
    intro _
    rfl
  | cons a t ih =>
    intro hx
    have hstep : (runBooks env (a :: t) st).1 = (runBooks env t (processBook env st a).1).1 := by
      simp [runBooks]
    rw [hstep]
    have hxa : a.id ≠ x := by
      intro he
      exact hx (by simp [← he])
    have hxt : x ∉ t.map (fun y => y.id) := by
      intro he
      exact hx (by simp [he])
    rw [ih _ hxt, processBook_hist_foreign env st a x hxa]

theorem runBooks_hist_of_mem (env : Env) (bs : List Book) (st : Storage) (b : Book) :
    (st.books.map (fun y => y.id)).Nodup →
    (bs.map (fun y => y.id)).Nodup →
    (∀ y ∈ bs, y ∈ st.books) →
    b ∈ bs →
    ((runBooks env bs st).1.history.filter (fun h => h.bookId == b.id)).map histKey
      = ((st.history.filter (fun h => h.bookId == b.id)).map histKey)
        ++ (checkForNewChapters env b.url b.lastChapter).newChapters.map
            (fun c => (c.number, HistoryAction.detected)) := by
  induction bs generalizing st with
  | nil =>
    intro _ _ _ hb
    cases hb
  | cons a t ih =>
    intro hnd hbs hpend hb
    have hstep : (runBooks env (a :: t) st).1 = (runBooks env t (processBook env st a).1).1 := by
      simp [runBooks]
    rw [hstep]
    have hmem_a : a ∈ st.books := hpend a (List.mem_cons_self a t)
    obtain ⟨-, hids, hmemo⟩ := processBook_stable env st a hnd hmem_a
    have hnd' : ((processBook env st a).1.books.map (fun y => y.id)).Nodup := by
      rw [hids]
      exact hnd
    have hcons := List.nodup_cons.mp
      (show (a.id :: t.map (fun y => y.id)).Nodup by simpa using hbs)
    rcases List.mem_cons.mp hb with hba | hbt
    · subst hba
      have hxt : b.id ∉ t.map (fun y => y.id) := hcons.1
      rw [runBooks_hist_foreign env t _ b.id hxt]
      have h3 := processBook_hist env st b b.id hnd hmem_a
      rw [if_pos rfl] at h3
      exact h3
    · have hne : a.id ≠ b.id := by
        intro he
        exact hcons.1 (he ▸ List.mem_map_of_mem _ hbt)
      have hpend' : ∀ y ∈ t, y ∈ (processBook env st a).1.books := by
        intro y hy
        refine hmemo y (hpend y (List.mem_cons_of_mem a hy)) ?_
        intro he
        exact hcons.1 (he ▸ List.mem_map_of_mem _ hy)
      rw [ih _ hnd' hcons.2 hpend' hbt, processBook_hist_foreign env st a b.id hne]

theorem schedHistFold_mem (env : Env) (bid : Nat) (cs : List Chapter)
    (init : Storage × List Ev) :
    ∀ h ∈ (cs.foldl (fun acc c =>
        (addHistoryEntry env acc.1 bid c.number c.title c.url .detected,
         acc.2 ++ [Ev.histEv bid c.number .detected])) init).1.history,
      h ∈ init.1.history ∨ h.action = HistoryAction.detected := by
  induction cs generalizing init with
  | nil =>
    intro h hh
    exact Or.inl hh
  | cons c cs ih =>
    intro h hh
    rw [List.foldl_cons] at hh
    rcases ih _ h hh with h1 | h2
    · rcases List.mem_append.mp h1 with h3 | h4
      · exact Or.inl h3
      · right
        rw [List.mem_singleton.mp h4]
    · exact Or.inr h2

theorem processBook_hist_mem (env : Env) (st : Storage) (b : Book) :
    ∀ h ∈ (processBook env st b).1.history,
      h ∈ st.history ∨ h.action = HistoryAction.detected := by
  simp only [processBook]
  split
  · split
    · intro h hh
      exact Or.inl hh
    · rename_i st1 heq
      intro h hh
      simp only [] at hh
      rcases schedHistFold_mem env b.id _ (st1, ([] : List Ev)) h hh with h1 | h2
      · rw [(updateBook_ok_frame env st b.id _ st1 heq).2.1] at h1
        exact Or.inl h1
      · exact Or.inr h2
  · split
    · intro h hh
      exact Or.inl hh
    · rename_i st1 heq
      intro h hh
      simp only [] at hh
      rw [(updateBook_ok_frame env st b.id _ st1 heq).2.1] at hh
      exact Or.inl hh

theorem runBooks_hist_mem (env : Env) (bs : List Book) (st : Storage) :
    ∀ h ∈ (runBooks env bs st).1.history,
      h ∈ st.history ∨ h.action = HistoryAction.detected := by
  induction bs generalizing st with
  | nil =>
    intro h hh
    exact Or.inl hh
  | cons a t ih =>
    intro h hh
    have hstep : (runBooks env (a :: t) st).1 = (runBooks env t (processBook env st a).1).1 := by
      simp [runBooks]
    rw [hstep] at hh
    rcases ih _ h hh with h1 | h2
    · exact processBook_hist_mem env st a h h1
    · exact Or.inr h2

theorem schedHistFold_events (env : Env) (bid : Nat) (cs : List Chapter)
    (init : Storage × List Ev) :
    (cs.foldl (fun acc c =>
        (addHistoryEntry env acc.1 bid c.number c.title c.url .detected,
         acc.2 ++ [Ev.histEv bid c.number .detected])) init).2
      = init.2 ++ cs.map (fun c => Ev.histEv bid c.number HistoryAction.detected) := by
  induction cs generalizing init with
  | nil => simp
  | cons c cs ih =>
    rw [List.foldl_cons, ih]
    simp

theorem processBook_trace (env : Env) (st : Storage) (b : Book)
    (hnd : (st.books.map (fun y => y.id)).Nodup) (hb : b ∈ st.books) :
    (processBook env st b).2
      = if (checkForNewChapters env b.url b.lastChapter).hasNewChapters = true
        then Ev.update b.id (some (checkForNewChapters env b.url b.lastChapter).lastChapter)
          :: (checkForNewChapters env b.url b.lastChapter).newChapters.map
              (fun c => Ev.histEv b.id c.number HistoryAction.detected)
        else [Ev.update b.id none] := by
  simp only [processBook]
  by_cases hnew : (checkForNewChapters env b.url b.lastChapter).hasNewChapters = true
  · have hlt := checkForNewChapters_hasNew_gt env b.url b.lastChapter hnew
    have hv : b.lastChapter ≤ (applyUpdates env b
        { lastChapter := some (checkForNewChapters env b.url b.lastChapter).lastChapter,
          totalChapters := some (checkForNewChapters env b.url b.lastChapter).totalChapters,
          lastChecked := some env.now }).lastChapter := by
      simp only [applyUpdates, Option.getD_some]
      omega
    obtain ⟨st1, hup, -, -, -, -, -, -⟩ :=
      updateBook_snapshot env st b b.id _ hnd hb rfl hv
    rw [if_pos hnew, hup, if_pos hnew]
    simp only []
    rw [schedHistFold_events env b.id _ (st1, ([] : List Ev))]
    simp
  · have hv : b.lastChapter ≤ (applyUpdates env b
        { lastChecked := some env.now }).lastChapter := by
      simp [applyUpdates]
    obtain ⟨st1, hup, -, -, -, -, -, -⟩ :=
      updateBook_snapshot env st b b.id _ hnd hb rfl hv
    rw [if_neg hnew, hup, if_neg hnew]

theorem processBook_trace_ids (env : Env) (st : Storage) (b : Book) :
    ∀ e ∈ (processBook env st b).2, evBookId e = b.id := by
  simp only [processBook]
  split
  · split
    · intro e he
      cases he
    · rename_i st1 heq
      intro e he
      simp only [] at he
      rw [schedHistFold_events env b.id _ (st1, ([] : List Ev))] at he
      rcases List.mem_cons.mp he with h1 | h2
      · rw [h1]
        rfl
      · simp only [List.nil_append] at h2
        obtain ⟨c, -, hc⟩ := List.mem_map.mp h2
        rw [← hc]
        rfl
  · split
    · intro e he
      cases he
    · intro e he
      rw [List.mem_singleton.mp he]
      rfl

theorem runBooks_trace_ids (env : Env) (bs : List Book) (st : Storage) :
    ∀ e ∈ (runBooks env bs st).2, evBookId e ∈ bs.map (fun y => y.id) := by
  induction bs generalizing st with
  | nil =>
    intro e he
    cases he
  | cons a t ih =>
    intro e he
    have hstep : (runBooks env (a :: t) st).2
        = (processBook env st a).2 ++ (runBooks env t (processBook env st a).1).2 := by
      simp [runBooks]
    rw [hstep] at he
    rcases List.mem_append.mp he with h1 | h2
    · rw [processBook_trace_ids env st a e h1]
      simp
    · have := ih _ e h2
      simp only [List.map_cons, List.mem_cons]
      right
      exact this

theorem runBooks_trace_of_mem (env : Env) (bs : List Book) (st : Storage) (b : Book) :
    (st.books.map (fun y => y.id)).Nodup →
    (bs.map (fun y => y.id)).Nodup →
    (∀ y ∈ bs, y ∈ st.books) →
    b ∈ bs →
    (runBooks env bs st).2.filter (fun e => evBookId e == b.id)
      = (if (checkForNewChapters env b.url b.lastChapter).hasNewChapters = true
         then Ev.update b.id (some (checkForNewChapters env b.url b.lastChapter).lastChapter)
           :: (checkForNewChapters env b.url b.lastChapter).newChapters.map
               (fun c => Ev.histEv b.id c.number HistoryAction.detected)
         else [Ev.update b.id none]) := by
  induction bs generalizing st with
  | nil =>
    intro _ _ _ hb
    cases hb
  | cons a t ih =>
    intro hnd hbs hpend hb
    have hstep : (runBooks env (a :: t) st).2
        = (processBook env st a).2 ++ (runBooks env t (processBook env st a).1).2 := by
      simp [runBooks]
    rw [hstep, List.filter_append]
    have hmem_a : a ∈ st.books := hpend a (List.mem_cons_self a t)
    obtain ⟨-, hids, hmemo⟩ := processBook_stable env st a hnd hmem_a
    have hnd' : ((processBook env st a).1.books.map (fun y => y.id)).Nodup := by
      rw [hids]
      exact hnd
    have hcons := List.nodup_cons.mp
      (show (a.id :: t.map (fun y => y.id)).Nodup by simpa using hbs)
    rcases List.mem_cons.mp hb with hba | hbt
    · subst hba
      have h1 : (processBook env st b).2.filter (fun e => evBookId e == b.id)
          = (processBook env st b).2 := by
        refine List.filter_eq_self.mpr ?_
        intro e he
        simp [processBook_trace_ids env st b e he]
      have h2 : (runBooks env t (processBook env st b).1).2.filter
          (fun e => evBookId e == b.id) = [] := by
        refine List.filter_eq_nil_iff.mpr ?_
        intro e he
        have hin := runBooks_trace_ids env t _ e he
        simp only [beq_iff_eq]
        intro heq
        exact hcons.1 (heq ▸ hin)
      rw [h1, h2, List.append_nil]
      exact processBook_trace env st b hnd hmem_a
    · have hne : a.id ≠ b.id := by
        intro he
        exact hcons.1 (he ▸ List.mem_map_of_mem _ hbt)
      have hpend' : ∀ y ∈ t, y ∈ (processBook env st a).1.books := by
        intro y hy
        refine hmemo y (hpend y (List.mem_cons_of_mem a hy)) ?_
        intro he
        exact hcons.1 (he ▸ List.mem_map_of_mem _ hy)
      have h1 : (processBook env st a).2.filter (fun e => evBookId e == b.id) = [] := by
        refine List.filter_eq_nil_iff.mpr ?_
        intro e he
        simp only [beq_iff_eq]
        rw [processBook_trace_ids env st a e he]
        exact hne
      rw [h1, List.nil_append]
      exact ih _ hnd' hcons.2 hpend' hbt

/-- C5 counterexample: with an environment whose summarizer always succeeds
and a tracked book with two new chapters (6 and 7), the reconciliation run
appends only `detected` history entries and no `summarized` entry at all —
although summarization of those chapters would succeed — refuting that a
`summarized` entry is appended exactly when summarization succeeds. -/
theorem reconciliation_summarized_counterexample :
    envA.summarizeChapter "text" "chapter 7" "Book" = .ok "sum" ∧
    envA.summarizeMultiple [chap6, chap7] "Book" = .ok "sum" ∧
    (checkForNewChapters envA bookA.url bookA.lastChapter).newChapters = [chap6, chap7] ∧
    ((checkAllBooks envA { isRunning := false, store := stA }).1.store.history.map
        (fun h => (h.chapterNumber, h.action)))
      = [(6, HistoryAction.detected), (7, HistoryAction.detected)] ∧
    ((checkAllBooks envA { isRunning := false, store := stA }).1.store.history.filter
        (fun h => h.action == HistoryAction.summarized)) = [] :=
  ⟨rfl, rfl, by decide, by decide, by decide⟩

/-- C5 (amended): during a reconciliation run started from Idle over a
registry with unique ids, for each book the run appends exactly one
`detected` history entry per new chapter, in ascending (oldest-first)
chapter order, and appends nothing but `detected` entries — in particular
no `summarized` entries, because the run performs no summarization
(summaries and `summarized` entries are written elsewhere: by the daily
summary pass and the registration handler respectively). -/
theorem reconciliation_history_detected_amended (env : Env) (st : Storage) (b : Book)
    (hnd : (st.books.map (fun x => x.id)).Nodup) (hb : b ∈ st.books) :
    (((checkAllBooks env { isRunning := false, store := st }).1.store.history.filter
        (fun h => h.bookId == b.id)).map histKey
      = ((st.history.filter (fun h => h.bookId == b.id)).map histKey)
        ++ (checkForNewChapters env b.url b.lastChapter).newChapters.map
            (fun c => (c.number, HistoryAction.detected))) ∧
    (∀ h ∈ (checkAllBooks env { isRunning := false, store := st }).1.store.history,
        h ∈ st.history ∨ h.action = HistoryAction.detected) ∧
    (checkForNewChapters env b.url b.lastChapter).newChapters.Pairwise
      (fun a b => a.number ≤ b.number) := by
  have hrun : (checkAllBooks env { isRunning := false, store := st }).1.store
      = (runBooks env st.books st).1 := rfl
  refine ⟨?_, ?_, checkForNewChapters_sorted env b.url b.lastChapter⟩
  · rw [hrun]
    exact runBooks_hist_of_mem env st.books st b hnd hnd (fun y hy => hy) hb
  · rw [hrun]
    exact runBooks_hist_mem env st.books st

theorem reconciliation_history_detected_amended_witness :
    (((checkAllBooks envA { isRunning := false, store := stA }).1.store.history.filter
        (fun h => h.bookId == bookA.id)).map histKey
      = ((stA.history.filter (fun h => h.bookId == bookA.id)).map histKey)
        ++ (checkForNewChapters envA bookA.url bookA.lastChapter).newChapters.map
            (fun c => (c.number, HistoryAction.detected))) ∧
    (∀ h ∈ (checkAllBooks envA { isRunning := false, store := stA }).1.store.history,
        h ∈ stA.history ∨ h.action = HistoryAction.detected) ∧
    (checkForNewChapters envA bookA.url bookA.lastChapter).newChapters.Pairwise
      (fun a b => a.number ≤ b.number) :=
  reconciliation_history_detected_amended envA stA bookA (by decide) (by decide)

/-- C6 counterexample: for the concrete run with new chapters 6 and 7, the
trace contains `detected` history-append events for the book strictly after
its watermark write (`histAfterUpdate` is true), refuting that the single
watermark write happens only after all of the book's new chapters have been
processed and recorded. -/
theorem watermark_write_order_counterexample :
    (checkForNewChapters envA bookA.url bookA.lastChapter).hasNewChapters = true ∧
    histAfterUpdate 1 (checkAllBooks envA { isRunning := false, store := stA }).2 = true :=
  ⟨by decide, by decide⟩

/-- C6 (amended): within a reconciliation run from Idle over a registry
with unique ids, a book with new chapters gets exactly one Book-record
write (watermark + lastChecked), and that single write happens BEFORE the
book's per-chapter `detected` history entries are appended — the code
persists the watermark first and records history afterwards; no content
fetch or summarization happens in the run. -/
theorem watermark_write_once_before_history_amended (env : Env) (st : Storage) (b : Book)
    (hnd : (st.books.map (fun x => x.id)).Nodup) (hb : b ∈ st.books)
    (hnew : (checkForNewChapters env b.url b.lastChapter).hasNewChapters = true) :
    (checkAllBooks env { isRunning := false, store := st }).2.filter
        (fun e => evBookId e == b.id)
      = Ev.update b.id (some (checkForNewChapters env b.url b.lastChapter).lastChapter)
        :: (checkForNewChapters env b.url b.lastChapter).newChapters.map
             (fun c => Ev.histEv b.id c.number HistoryAction.detected) ∧
    ((checkAllBooks env { isRunning := false, store := st }).2.filter
        (fun e => evBookId e == b.id)).countP (fun e => isUpdateEv e) = 1 := by
  have htr : (checkAllBooks env { isRunning := false, store := st }).2
      = (runBooks env st.books st).2 := rfl
  have h := runBooks_trace_of_mem env st.books st b hnd hnd (fun y hy => hy) hb
  rw [if_pos hnew] at h
  rw [htr, h]
  refine ⟨rfl, ?_⟩
  have h0 : ((checkForNewChapters env b.url b.lastChapter).newChapters.map
      (fun c => Ev.histEv b.id c.number HistoryAction.detected)).countP
        (fun e => isUpdateEv e) = 0 := by
    rw [List.countP_eq_zero]
    intro e he
    obtain ⟨c, -, hc⟩ := List.mem_map.mp he
    rw [← hc]
    simp [isUpdateEv]
  simp [List.countP_cons, h0, isUpdateEv]

theorem watermark_write_once_before_history_amended_witness :
    (checkAllBooks envA { isRunning := false, store := stA }).2.filter
        (fun e => evBookId e == bookA.id)
      = Ev.update bookA.id (some (checkForNewChapters envA bookA.url bookA.lastChapter).lastChapter)
        :: (checkForNewChapters envA bookA.url bookA.lastChapter).newChapters.map
             (fun c => Ev.histEv bookA.id c.number HistoryAction.detected) ∧
    ((checkAllBooks envA { isRunning := false, store := stA }).2.filter
        (fun e => evBookId e == bookA.id)).countP (fun e => isUpdateEv e) = 1 :=
  watermark_write_once_before_history_amended envA stA bookA (by decide) (by decide) (by decide)

/-! ### Lemmas: registration, removal, cleanup -/

theorem scrapeBookInfo_ok_url (env : Env) (url : String) (bi : BookInfo)
    (h : scrapeBookInfo env url = .ok bi) : bi.url = url := by
  unfold scrapeBookInfo at h
  cases e : env.scrape url with
  | error s =>
    rw [e] at h
    cases h
  | ok page =>
    rw [e] at h
    simp only [Except.ok.injEq] at h
    subst h
    rfl

theorem initFold_books (env : Env) (btitle : String) (bid : Nat) (cs : List Chapter)
    (init : Storage × List InitItem) :
    (cs.foldl (initialChapterStep env btitle bid) init).1.books = init.1.books := by
  induction cs generalizing init with
  | nil => rfl
  | cons c cs ih =>
    rw [List.foldl_cons, ih]
    simp only [initialChapterStep]
    split
    · rfl
    · split
      · split
        · rfl
        · rfl
      · rfl

/-- C7: registering a fresh URL succeeds with 201 and leaves exactly one
Book with that URL in the registry; a second registration of the same URL
returns 400 and leaves the whole storage unchanged; a registration request
with a missing URL returns 400 and leaves the storage unchanged. -/
theorem duplicate_registration_rejected (env : Env) (st : Storage) (url : String)
    (page : ScrapedPage)
    (h0 : st.books.countP (fun b => b.url == url) = 0)
    (hs : env.scrape url = .ok page) :
    (postBooksApi (some url) env st).1 = 201 ∧
    ((postBooksApi (some url) env st).2.books.countP (fun b => b.url == url)) = 1 ∧
    (postBooksApi (some url) env (postBooksApi (some url) env st).2)
      = (400, (postBooksApi (some url) env st).2) ∧
    postBooksApi none env st = (400, st) := by
  have hnone : st.books.find? (fun b => b.url == url) = none := by
    rw [List.find?_eq_none]
    intro x hx
    exact List.countP_eq_zero.mp h0 x hx
  cases hbi : scrapeBookInfo env url with
  | error e =>
    exfalso
    unfold scrapeBookInfo at hbi
    rw [hs] at hbi
    cases hbi
  | ok bi =>
    have hbiurl : bi.url = url := scrapeBookInfo_ok_url env url bi hbi
    have hgen : ∀ (c : Prop) (inst : Decidable c) (s1 : Storage) (sd : SummaryData),
        (@ite _ c inst (addSummary env s1 sd) s1).books = s1.books := by
      intro c inst s1 sd
      split <;> rfl
    have hbooks : (postBooksApi (some url) env st).2.books
        = st.books ++ [(addBook env st bi).1] := by
      simp only [postBooksApi]
      rw [hnone, hbi]
      simp only []
      rw [hgen, initFold_books]
      rfl
    have hstatus : (postBooksApi (some url) env st).1 = 201 := by
      simp only [postBooksApi]
      rw [hnone, hbi]
    have hcount : ((postBooksApi (some url) env st).2.books.countP
        (fun b => b.url == url)) = 1 := by
      rw [hbooks, List.countP_append, h0]
      simp [addBook, hbiurl]
    refine ⟨hstatus, hcount, ?_, rfl⟩
    set st2 := (postBooksApi (some url) env st).2 with hst2
    have hmem : (addBook env st bi).1 ∈ st2.books := by
      rw [hbooks]
      exact List.mem_append_right _ (List.mem_singleton.mpr rfl)
    cases hf : st2.books.find? (fun b => b.url == url) with
    | none =>
      exfalso
      have hall := List.find?_eq_none.mp hf (addBook env st bi).1 hmem
      refine hall ?_
      show ((addBook env st bi).1.url == url) = true
      simp [addBook, hbiurl]
    | some bk =>
      simp only [postBooksApi]
      rw [hf]

theorem duplicate_registration_rejected_witness :
    (postBooksApi (some "u") envA stEmpty).1 = 201 ∧
    ((postBooksApi (some "u") envA stEmpty).2.books.countP (fun b => b.url == "u")) = 1 ∧
    (postBooksApi (some "u") envA (postBooksApi (some "u") envA stEmpty).2)
      = (400, (postBooksApi (some "u") envA stEmpty).2) ∧
    postBooksApi none envA stEmpty = (400, stEmpty) :=
  duplicate_registration_rejected envA stEmpty "u" { title := "Book", found := [chap7, chap6] }
    (by decide) rfl

/-- C8: deleting a tracked book returns 200, removes exactly the books with
that id and exactly the summaries with that `bookId`, and leaves the
history log (and the id counter) untouched; deleting an unknown id returns
404 and changes nothing. -/
theorem remove_book_cascade (bookId : Nat) (st : Storage) :
    (st.books.any (fun b => b.id == bookId) = true →
      (apiDeleteBook bookId st).1 = 200 ∧
      (apiDeleteBook bookId st).2.books = st.books.filter (fun b => b.id != bookId) ∧
      (apiDeleteBook bookId st).2.summaries
        = st.summaries.filter (fun s => s.bookId != bookId) ∧
      (apiDeleteBook bookId st).2.history = st.history ∧
      (apiDeleteBook bookId st).2.nextId = st.nextId) ∧
    (st.books.any (fun b => b.id == bookId) = false →
      apiDeleteBook bookId st = (404, st)) := by
  constructor
  · intro hany
    obtain ⟨x, hx, hpx⟩ := List.any_eq_true.mp hany
    have hlt : (st.books.filter (fun b => b.id != bookId)).length ≠ st.books.length := by
      intro heq
      have hsub : st.books.filter (fun b => b.id != bookId) = st.books :=
        (List.filter_sublist st.books).eq_of_length heq
      have hxin : x ∈ st.books.filter (fun b => b.id != bookId) := by
        rw [hsub]
        exact hx
      have := List.of_mem_filter hxin
      simp only [bne_iff_ne, ne_eq] at this
      exact this (by simpa using hpx)
    have hcond : ((st.books.filter (fun b => b.id != bookId)).length == st.books.length)
        = false := by
      simpa using hlt
    simp [apiDeleteBook, removeBook, hcond, removeSummariesByBookId]
  · intro hany
    have hall : ∀ x ∈ st.books, (x.id != bookId) = true := by
      intro x hx
      have hnx := List.any_eq_false.mp hany x hx
      simpa using hnx
    have heq : st.books.filter (fun b => b.id != bookId) = st.books :=
      List.filter_eq_self.mpr hall
    have hcond : ((st.books.filter (fun b => b.id != bookId)).length == st.books.length)
        = true := by
      rw [heq]
      simp
    simp only [apiDeleteBook, removeBook, hcond, if_true]

theorem remove_book_cascade_witness :
    (apiDeleteBook 1 stB).1 = 200 ∧
    (apiDeleteBook 1 stB).2.books = stB.books.filter (fun b => b.id != 1) ∧
    (apiDeleteBook 1 stB).2.summaries = stB.summaries.filter (fun s => s.bookId != 1) ∧
    (apiDeleteBook 1 stB).2.history = stB.history ∧
    (apiDeleteBook 1 stB).2.nextId = stB.nextId :=
  (remove_book_cascade 1 stB).1 (by decide)

theorem length_sub_filter (p : Summary → Bool) (l : List Summary) :
    l.length - (l.filter p).length = (l.filter (fun a => !p a)).length := by
  induction l with
  | nil => rfl
  | cons a t ih =>
    by_cases hp : p a = true
    · simp only [List.filter_cons, hp, if_true, List.length_cons, Bool.not_true,
        Bool.false_eq_true, if_false]
      rw [Nat.succ_sub_succ]
      exact ih
    · have hp' : p a = false := by
        revert hp
        cases p a <;> simp
      simp only [List.filter_cons, hp', Bool.false_eq_true, if_false, List.length_cons,
        Bool.not_false, if_true]
      rw [Nat.succ_sub (List.length_filter_le p t), ih]

theorem length_sub_filter_hist (p : HistoryEntry → Bool) (l : List HistoryEntry) :
    l.length - (l.filter p).length = (l.filter (fun a => !p a)).length := by
  induction l with
  | nil => rfl
  | cons a t ih =>
    by_cases hp : p a = true
    · simp only [List.filter_cons, hp, if_true, List.length_cons, Bool.not_true,
        Bool.false_eq_true, if_false]
      rw [Nat.succ_sub_succ]
      exact ih
    · have hp' : p a = false := by
        revert hp
        cases p a <;> simp
      simp only [List.filter_cons, hp', Bool.false_eq_true, if_false, List.length_cons,
        Bool.not_false, if_true]
      rw [Nat.succ_sub (List.length_filter_le p t), ih]

/-- C9 counterexample: an entry dated exactly at the cutoff (not strictly
older than it) is nonetheless deleted by `cleanup` and counted as removed,
refuting that exactly the entries older than the cutoff are deleted. -/
theorem cleanup_cutoff_counterexample :
    stCut.summaries = [sumCut] ∧
    ¬(sumCut.date < envErr.now - 30 * msPerDay) ∧
    (cleanup envErr 30 stCut).2.summaries = [] ∧
    (cleanup envErr 30 stCut).1.summariesRemoved = 1 :=
  ⟨rfl, by decide, by decide, by decide⟩

/-- C9 (amended): for every state and every `maxAgeDays`, `cleanup` keeps
exactly the Summary and History entries dated strictly after the cutoff
(`now` minus `maxAgeDays` days) — deleting those dated at or before the
cutoff — returns the exact counts of deleted summaries and history
entries, and leaves the book registry (and id counter) unchanged. -/
theorem cleanup_retention_amended (env : Env) (daysOld : Nat) (st : Storage) :
    (cleanup env daysOld st).2.books = st.books ∧
    (cleanup env daysOld st).2.nextId = st.nextId ∧
    (cleanup env daysOld st).2.summaries
      = st.summaries.filter (fun s => s.date > env.now - daysOld * msPerDay) ∧
    (cleanup env daysOld st).2.history
      = st.history.filter (fun h => h.date > env.now - daysOld * msPerDay) ∧
    (cleanup env daysOld st).1.summariesRemoved
      = (st.summaries.filter (fun s => s.date ≤ env.now - daysOld * msPerDay)).length ∧
    (cleanup env daysOld st).1.historyRemoved
      = (st.history.filter (fun h => h.date ≤ env.now - daysOld * msPerDay)).length := by
  refine ⟨rfl, rfl, rfl, rfl, ?_, ?_⟩
  · show st.summaries.length
        - (st.summaries.filter (fun s => s.date > env.now - daysOld * msPerDay)).length
      = (st.summaries.filter (fun s => s.date ≤ env.now - daysOld * msPerDay)).length
    rw [length_sub_filter]
    refine congrArg List.length (List.filter_congr ?_)
    intro a _
    by_cases h : a.date ≤ env.now - daysOld * msPerDay
    · simp [h, not_lt.mpr h]
    · simp [h, not_le.mp h]
  · show st.history.length
        - (st.history.filter (fun h => h.date > env.now - daysOld * msPerDay)).length
      = (st.history.filter (fun h => h.date ≤ env.now - daysOld * msPerDay)).length
    rw [length_sub_filter_hist]
    refine congrArg List.length (List.filter_congr ?_)
    intro a _
    by_cases h : a.date ≤ env.now - daysOld * msPerDay
    · simp [h, not_lt.mpr h]
    · simp [h, not_le.mp h]
